import Mathlib

/-!
Verification of the account-search engine (searchUtils.ts together with the
filter-evaluation code of the two search pages).  The TypeScript source is
embedded shallowly: JavaScript strings become `String` (manipulated through
their character lists), JavaScript numbers become `Rat` with `Option Rat`
standing for possibly-NaN results of `Number(...)` coercion (a NaN compares
false against everything, which `Option` models by making every comparison
with `none` false), and `Array.prototype.sort` with a comparator becomes a
stable insertion sort with respect to `comparator a b <= 0`.
-/

namespace BillmaxSearch

/-! ### JavaScript string primitives (on character lists) -/

/-- `chStarts p s` models `s.startsWith(p)` on character lists. -/
def chStarts : List Char → List Char → Bool
  | [], _ => true
  | _ :: _, [] => false
  | a :: as, b :: bs => a == b && chStarts as bs

/-- `chContains needle hay` models `hay.includes(needle)`. -/
def chContains (needle : List Char) : List Char → Bool
  | [] => chStarts needle []
  | c :: t => chStarts needle (c :: t) || chContains needle t

/-- Lexicographic `<` on character lists: JavaScript's `<` on strings
(code-unit comparison; the repository only compares ASCII dates). -/
def chLt : List Char → List Char → Bool
  | [], [] => false
  | [], _ :: _ => true
  | _ :: _, [] => false
  | a :: as, b :: bs => decide (a < b) || (a == b && chLt as bs)

/-- Three-way lexicographic comparison, modelling `localeCompare` restricted
to code-unit order (the repository's name/email fields are plain ASCII). -/
def chCmp : List Char → List Char → Int
  | [], [] => 0
  | [], _ :: _ => -1
  | _ :: _, [] => 1
  | a :: as, b :: bs => if a < b then -1 else if b < a then 1 else chCmp as bs

/-- Strip leading and trailing whitespace, modelling `String.prototype.trim`. -/
def trimChars (cs : List Char) : List Char :=
  ((cs.dropWhile Char.isWhitespace).reverse.dropWhile Char.isWhitespace).reverse

/-- `s.toLowerCase()` (ASCII case folding, which covers the repository's data). -/
def jsLower (s : String) : String := String.mk (s.data.map Char.toLower)

/-- `s.trim()`. -/
def jsTrim (s : String) : String := String.mk (trimChars s.data)

/-- `a <= b` on JavaScript strings. -/
def strLeB (a b : String) : Bool := !(chLt b.data a.data)

/-- `a < b` on JavaScript strings. -/
def strLtB (a b : String) : Bool := chLt a.data b.data

/-- `hay.includes(needle)` on strings. -/
def jsIncludes (hay needle : String) : Bool := chContains needle.data hay.data

/-- `s.startsWith(p)` on strings. -/
def jsStartsWith (s p : String) : Bool := chStarts p.data s.data

/-! ### JavaScript number coercion -/

/-- Numeric value of a digit list (most significant first). -/
def natOfDigits (cs : List Char) : Nat :=
  cs.foldl (fun a c => 10 * a + (c.toNat - 48)) 0

/-- Models the `Number(string)` coercion on the string shapes this application
feeds it: surrounding whitespace is ignored, the empty string is `0`, an
optional sign is followed by decimal digits with an optional fractional part;
every other shape yields NaN, modelled as `none`. -/
def jsToNumber (s : String) : Option Rat :=
  let cs := trimChars s.data
  if cs.isEmpty then some 0
  else
    let signAndRest : Rat × List Char :=
      match cs with
      | '-' :: rest => (-1, rest)
      | '+' :: rest => (1, rest)
      | rest => (1, rest)
    let sign := signAndRest.1
    let body := signAndRest.2
    let intPart := body.takeWhile Char.isDigit
    let rest := body.dropWhile Char.isDigit
    match rest with
    | [] => if intPart.isEmpty then none else some (sign * natOfDigits intPart)
    | '.' :: frac =>
      if frac.all Char.isDigit && (!intPart.isEmpty || !frac.isEmpty) then
        some (sign * ((natOfDigits intPart : Rat) +
          (natOfDigits frac : Rat) / ((10 : Rat) ^ frac.length)))
      else none
    | _ => none

/-! ### Data model (`data/mockData.ts`) -/

/-- Account status enumeration. -/
inductive Status where
  | Open
  | Closed
  | Collections
  | Suspended
deriving DecidableEq

/-- Display string of a status (the literal union values of the source). -/
def statusString : Status → String
  | .Open => "Open"
  | .Closed => "Closed"
  | .Collections => "Collections"
  | .Suspended => "Suspended"

/-- One account record (`interface Account` of `data/mockData.ts`).
`balance` is `number` in the source and always an integer in the data set. -/
structure Account where
  id : String
  accountNumber : String
  companyName : String
  contactName : String
  phoneNumber : String
  email : String
  status : Status
  balance : Int
  createdDate : String
  lastActivity : String
  dateAdded : String
deriving DecidableEq

/-- `keyof Account`. -/
inductive Field where
  | id
  | accountNumber
  | companyName
  | contactName
  | phoneNumber
  | email
  | status
  | balance
  | createdDate
  | lastActivity
  | dateAdded
deriving DecidableEq

/-- A JavaScript value read out of an account: every field is a string except
`balance`, which is a number (always integral in this data model). -/
inductive JsValue where
  | str (s : String)
  | num (n : Int)
deriving DecidableEq

/-- `account[field]`. -/
def getField (a : Account) : Field → JsValue
  | .id => .str a.id
  | .accountNumber => .str a.accountNumber
  | .companyName => .str a.companyName
  | .contactName => .str a.contactName
  | .phoneNumber => .str a.phoneNumber
  | .email => .str a.email
  | .status => .str (statusString a.status)
  | .balance => .num a.balance
  | .createdDate => .str a.createdDate
  | .lastActivity => .str a.lastActivity
  | .dateAdded => .str a.dateAdded

/-- `String(v)`. -/
def jsStringOf : JsValue → String
  | .str s => s
  | .num n => toString n

/-- `Number(v)`: a number stays itself, a string goes through `Number(string)`. -/
def jsNumOf : JsValue → Option Rat
  | .str s => jsToNumber s
  | .num n => some (n : Rat)

/-! ### Filter model (`types/searchTypes.ts`) -/

/-- `type LogicOperator = 'And' | 'Or'`. -/
inductive LogicOperator where
  | And
  | Or
deriving DecidableEq

/-- `type FilterOperator` (the string union of the source; `doesNotContain`
stands for `'does not contain'`, `startsWith` for `'starts with'`, and
`gt`/`lt`/`ge`/`le` for `'>'`/`'<'`/`'>='`/`'<='`). -/
inductive FilterOperator where
  | is
  | contains
  | doesNotContain
  | startsWith
  | gt
  | lt
  | ge
  | le
  | before
  | after
deriving DecidableEq

/-- `interface AdvancedFilter`.  The optional `startDate`/`endDate` strings are
`Option String`; `none` models the absent (`undefined`) property. -/
structure AdvancedFilter where
  id : String
  logic : LogicOperator
  field : Field
  operator : FilterOperator
  values : List String
  inputValue : String
  startDate : Option String := none
  endDate : Option String := none
deriving DecidableEq

/-! ### Validator (`validateSearchInput` of searchUtils.ts) -/

/-- The result record `{ valid: boolean; error?: string }`. -/
structure ValidationResult where
  valid : Bool
  error : Option String := none
deriving DecidableEq

/-- `/[a-zA-Z]/.test(s)`. -/
def hasAlpha (s : String) : Bool :=
  s.data.any fun c => ('a' ≤ c && c ≤ 'z') || ('A' ≤ c && c ≤ 'Z')

/-- `s.replace(/[\s\-\(\)]/g, '')`: drop whitespace, hyphens and parentheses. -/
def stripPhoneChars (s : String) : String :=
  String.mk (s.data.filter fun c => !(c.isWhitespace || c == '-' || c == '(' || c == ')'))

/-- `validateSearchInput(field, value)`: the empty value is always valid, an
account number must not contain letters, a phone number must not contain
letters once formatting is stripped, every other field (email included) is
accepted unconditionally. -/
def validateSearchInput (field : Field) (value : String) : ValidationResult :=
  if value = "" then { valid := true }
  else
    match field with
    | .accountNumber =>
      if hasAlpha value then
        { valid := false, error := some "Account number cannot contain letters" }
      else { valid := true }
    | .phoneNumber =>
      if hasAlpha (stripPhoneChars value) then
        { valid := false, error := some "Phone number cannot contain letters" }
      else { valid := true }
    | _ => { valid := true }

/-- The regular expression `/^\d+(\.\d+)?$/` used by `addValueToFilter` for the
balance field: one or more digits, optionally a decimal point followed by one
or more digits, and nothing else. -/
def balancePattern (s : String) : Bool :=
  let cs := s.data
  let intPart := cs.takeWhile Char.isDigit
  let rest := cs.dropWhile Char.isDigit
  !intPart.isEmpty &&
    (match rest with
     | [] => true
     | '.' :: frac => !frac.isEmpty && frac.all Char.isDigit
     | _ => false)

/-- `/^\d+$/.test(s)`: a non-empty all-digit string. -/
def allDigits (s : String) : Bool := !s.data.isEmpty && s.data.all Char.isDigit

/-- `addValueToFilter` of PrimarySearchPage, restricted to its value-level
outcome on one filter row: `none` when the trimmed input is empty (the source
does nothing), otherwise either the error message recorded in `filterErrors`
or the updated filter with the trimmed value appended and the input cleared. -/
def addValueToFilter (f : AdvancedFilter) : Option (Except String AdvancedFilter) :=
  if jsTrim f.inputValue = "" then none
  else
    let value := jsTrim f.inputValue
    if f.field = Field.balance ∧ balancePattern value = false then
      some (Except.error "Balance must be a valid number")
    else if f.field = Field.phoneNumber ∧ allDigits (stripPhoneChars value) = false then
      some (Except.error "Phone number cannot contain letters")
    else
      let validation := validateSearchInput f.field value
      if validation.valid then
        some (Except.ok { f with values := f.values ++ [value], inputValue := "" })
      else
        some (Except.error (validation.error.getD "Invalid input"))

/-! ### Predicate evaluator (`evaluateFilter` of the two pages) -/

/-- NaN-aware `>` on coerced numbers (`Number(x) > Number(y)`; any NaN side
makes the comparison false, exactly as in JavaScript). -/
def jsGtN : Option Rat → Option Rat → Bool
  | some a, some b => decide (a > b)
  | _, _ => false

/-- NaN-aware `<`. -/
def jsLtN : Option Rat → Option Rat → Bool
  | some a, some b => decide (a < b)
  | _, _ => false

/-- NaN-aware `>=`. -/
def jsGeN : Option Rat → Option Rat → Bool
  | some a, some b => decide (a ≥ b)
  | _, _ => false

/-- NaN-aware `<=`. -/
def jsLeN : Option Rat → Option Rat → Bool
  | some a, some b => decide (a ≤ b)
  | _, _ => false

/-- `evaluateFilter(account, filter)` of PrimarySearchPage: the `dateAdded`
field takes the date-range path (`filter.startDate || ''` and
`filter.endDate || ''`, string comparisons); an empty value list matches
everything; otherwise the operator dispatches over the value list.  The
`before`/`after` operators fall into the `default: return true` branch of
this page's switch. -/
def evaluateFilter (account : Account) (filter : AdvancedFilter) : Bool :=
  if filter.field = Field.dateAdded then
    let accountDate := jsStringOf (getField account filter.field)
    let start := filter.startDate.getD ""
    let stop := filter.endDate.getD ""
    if start ≠ "" ∧ stop = "" then strLeB start accountDate
    else if start = "" ∧ stop ≠ "" then strLeB accountDate stop
    else if start ≠ "" ∧ stop ≠ "" then strLeB start accountDate && strLeB accountDate stop
    else true
  else if filter.values.isEmpty then true
  else
    let fieldValue := getField account filter.field
    match filter.operator with
    | .is => filter.values.any fun v => jsLower (jsStringOf fieldValue) == jsLower v
    | .contains => filter.values.any fun v =>
        jsIncludes (jsLower (jsStringOf fieldValue)) (jsLower v)
    | .doesNotContain => filter.values.all fun v =>
        !jsIncludes (jsLower (jsStringOf fieldValue)) (jsLower v)
    | .startsWith => filter.values.any fun v =>
        jsStartsWith (jsLower (jsStringOf fieldValue)) (jsLower v)
    | .gt => filter.values.any fun v => jsGtN (jsNumOf fieldValue) (jsToNumber v)
    | .lt => filter.values.any fun v => jsLtN (jsNumOf fieldValue) (jsToNumber v)
    | .ge => filter.values.any fun v => jsGeN (jsNumOf fieldValue) (jsToNumber v)
    | .le => filter.values.any fun v => jsLeN (jsNumOf fieldValue) (jsToNumber v)
    | .before => true
    | .after => true

/-- `evaluateFilter(account, filter)` of SecondarySearchPage: no date-range
path, and the switch additionally handles `before`/`after` by lexical string
comparison of the raw field value against each operand. -/
def evaluateFilterS (account : Account) (filter : AdvancedFilter) : Bool :=
  if filter.values.isEmpty then true
  else
    let fieldValue := getField account filter.field
    match filter.operator with
    | .is => filter.values.any fun v => jsLower (jsStringOf fieldValue) == jsLower v
    | .contains => filter.values.any fun v =>
        jsIncludes (jsLower (jsStringOf fieldValue)) (jsLower v)
    | .doesNotContain => filter.values.all fun v =>
        !jsIncludes (jsLower (jsStringOf fieldValue)) (jsLower v)
    | .startsWith => filter.values.any fun v =>
        jsStartsWith (jsLower (jsStringOf fieldValue)) (jsLower v)
    | .gt => filter.values.any fun v => jsGtN (jsNumOf fieldValue) (jsToNumber v)
    | .lt => filter.values.any fun v => jsLtN (jsNumOf fieldValue) (jsToNumber v)
    | .ge => filter.values.any fun v => jsGeN (jsNumOf fieldValue) (jsToNumber v)
    | .le => filter.values.any fun v => jsLeN (jsNumOf fieldValue) (jsToNumber v)
    | .before => filter.values.any fun v => strLtB (jsStringOf fieldValue) v
    | .after => filter.values.any fun v => strLtB v (jsStringOf fieldValue)

/-- One step of the compound AND/OR combination: `result && matches` under
`'And'`, `result || matches` under `'Or'`. -/
def applyLogic (result : Bool) (logic : LogicOperator) (m : Bool) : Bool :=
  match logic with
  | .And => result && m
  | .Or => result || m

/-- The compound-evaluation loop of `filteredAccounts` (identical on both
pages): the first condition's result seeds `result`, each later condition is
combined through its own `logic` tag; an empty chain imposes no constraint. -/
def runChain (ev : Account → AdvancedFilter → Bool) (account : Account) :
    List AdvancedFilter → Bool
  | [] => true
  | f :: rest =>
    rest.foldl (fun result g => applyLogic result g.logic (ev account g)) (ev account f)

/-! ### Sorter (`sortAccountsByField` of searchUtils.ts) -/

/-- `Number(x) - Number(y)` as used inside sort comparators.  ECMAScript's
`SortCompare` maps a NaN comparator result to `+0`, which the `none` cases
reproduce. -/
def jsSub : Option Rat → Option Rat → Rat
  | some a, some b => a - b
  | _, _ => 0

/-- `String(v).replace(/\D/g, '')`: keep only the digits. -/
def stripNonDigits (s : String) : String := String.mk (s.data.filter Char.isDigit)

/-- The field-dispatched comparator passed to `sort` by `sortAccountsByField`:
account numbers ascending numeric, phone numbers ascending numeric on their
digits, balance descending numeric, `dateAdded` descending lexicographic,
the three text fields by `localeCompare`, and `0` for every other field. -/
def compareAccounts (field : Field) (a b : Account) : Rat :=
  let aValue := getField a field
  let bValue := getField b field
  match field with
  | .accountNumber => jsSub (jsNumOf aValue) (jsNumOf bValue)
  | .phoneNumber =>
    jsSub (jsToNumber (stripNonDigits (jsStringOf aValue)))
      (jsToNumber (stripNonDigits (jsStringOf bValue)))
  | .balance => jsSub (jsNumOf bValue) (jsNumOf aValue)
  | .dateAdded =>
    let aDate := jsStringOf aValue
    let bDate := jsStringOf bValue
    if strLtB aDate bDate then 1 else if strLtB bDate aDate then -1 else 0
  | .companyName => (chCmp (jsStringOf aValue).data (jsStringOf bValue).data : Rat)
  | .contactName => (chCmp (jsStringOf aValue).data (jsStringOf bValue).data : Rat)
  | .email => (chCmp (jsStringOf aValue).data (jsStringOf bValue).data : Rat)
  | _ => 0

/-- `sortAccountsByField(accounts, field)`: copy the input and sort it with
the field comparator.  `Array.prototype.sort` with a comparator (stable per
ECMAScript 2019) is modelled by the stable insertion sort with respect to
`comparator a b <= 0`. -/
def sortAccountsByField (accounts : List Account) (field : Field) : List Account :=
  List.insertionSort (fun a b => compareAccounts field a b ≤ 0) accounts

/-! ### Fuzzy matcher (`findClosestMatches` of searchUtils.ts) -/

/-- The in-order character scan of `findClosestMatches`: walk the field value
left to right while search characters remain; a match advances the search
pointer and extends the current consecutive streak, a mismatch resets the
streak.  Returns whether the whole search term was consumed, together with
the longest streak observed. -/
def subseqScan : List Char → List Char → Nat → Nat → Bool × Nat
  | _, [], _, maxc => (true, maxc)
  | [], _ :: _, _, maxc => (false, maxc)
  | c :: fv, s :: srest, consec, maxc =>
    if c == s then subseqScan fv srest (consec + 1) (max maxc (consec + 1))
    else subseqScan fv (s :: srest) 0 maxc

/-- `value.split(/\s+/)`: split on runs of whitespace, keeping the empty
segments that JavaScript produces at a leading or trailing separator. -/
def splitWs : List Char → List (List Char)
  | [] => [[]]
  | c :: rest =>
    let tail := splitWs rest
    if c.isWhitespace then
      match rest with
      | [] => [[], []]
      | d :: _ => if d.isWhitespace then tail else [] :: tail
    else
      match tail with
      | [] => [[c]]
      | w :: ws => (c :: w) :: ws

/-- The additive score of one candidate, on the lower-cased search term and
lower-cased field value: +1000 exact, +500 prefix, +200 substring, the
in-order-scan bonus `150 + 20 * longest streak`, the character-overlap bonus
`50 * overlap / length`, per-word +100/+50 bonuses, minus the length-difference
penalty (doubled beyond 10). -/
def scoreAccount (search fieldValue : List Char) : Rat :=
  let s1 : Rat := if fieldValue == search then 1000 else 0
  let s2 : Rat := if chStarts search fieldValue then 500 else 0
  let s3 : Rat := if chContains search fieldValue then 200 else 0
  let scan := subseqScan fieldValue search 0 0
  let s4 : Rat := if scan.1 then 150 + 20 * (scan.2 : Rat) else 0
  let matchingChars := fieldValue.countP fun c => search.contains c
  let s5 : Rat := ((matchingChars : Rat) / (search.length : Rat)) * 50
  let words := splitWs fieldValue
  let s6 : Rat := (words.map fun w =>
    (if chStarts search w then (100 : Rat) else 0) +
    (if chContains search w then (50 : Rat) else 0)).sum
  let lengthDiff : Nat := max fieldValue.length search.length -
    min fieldValue.length search.length
  let s7 : Rat := if lengthDiff > 10 then 2 * (lengthDiff : Rat) else (lengthDiff : Rat)
  s1 + s2 + s3 + s4 + s5 + s6 - s7

/-- One element of the `scored` array: the account together with its score and
its lower-cased field value (the later deduplication key). -/
structure ScoredAccount where
  account : Account
  score : Rat
  fieldValue : String
deriving DecidableEq

/-- Build the scored entry of one account. -/
def mkScored (searchTerm : String) (field : Field) (account : Account) : ScoredAccount :=
  let fieldValue := jsLower (jsStringOf (getField account field))
  let search := jsLower searchTerm
  { account := account, score := scoreAccount search.data fieldValue.data,
    fieldValue := fieldValue }

/-- The deduplication loop: walk the sorted candidates, skip a candidate whose
`fieldValue` was already seen, otherwise keep it, and stop as soon as five
candidates have been kept.  `count` is the number kept so far. -/
def pickUnique : List ScoredAccount → List String → Nat → List ScoredAccount
  | [], _, _ => []
  | item :: rest, seen, count =>
    if seen.contains item.fieldValue then pickUnique rest seen count
    else if count + 1 ≥ 5 then [item]
    else item :: pickUnique rest (item.fieldValue :: seen) (count + 1)

/-- `findClosestMatches(searchTerm, accounts, field)`: empty term gives no
suggestions; otherwise score every account, sort by score descending (stable),
drop non-positive scores, deduplicate by lower-cased field value keeping at
most five, and return the bare accounts. -/
def findClosestMatches (searchTerm : String) (accounts : List Account)
    (field : Field) : List Account :=
  if searchTerm = "" then []
  else
    let scored := accounts.map (mkScored searchTerm field)
    let sorted := (List.insertionSort (fun a b => a.score ≥ b.score) scored).filter
      fun item => decide (item.score > 0)
    (pickUnique sorted [] 0).map fun item => item.account

/-! ### Sample data for concrete witnesses -/

/-- A sample record in the shape of the generated mock data. -/
def sampleAccount : Account :=
  { id := "1", accountNumber := "12345678", companyName := "Acme Corp",
    contactName := "John Smith", phoneNumber := "(555) 123-4567",
    email := "john@example.com", status := .Open, balance := 5000,
    createdDate := "2024-01-10", lastActivity := "2024-02-01",
    dateAdded := "2024-01-15" }

/-- A record whose company name avoids the substrings "acme" and "corp". -/
def zetaAccount : Account :=
  { sampleAccount with id := "2", companyName := "Zeta Holdings", balance := -200 }

/-- Balance-scenario record with balance 5000. -/
def balAcc1 : Account := { sampleAccount with id := "b1", balance := 5000 }

/-- Balance-scenario record with balance -200. -/
def balAcc2 : Account := { sampleAccount with id := "b2", balance := -200 }

/-- Balance-scenario record with balance 1000. -/
def balAcc3 : Account := { sampleAccount with id := "b3", balance := 1000 }

/-- A record whose company name is `" a"`: after lower-casing and trimming it
collides with `plainNameAccount`, but the untrimmed deduplication key differs. -/
def spacedNameAccount : Account := { sampleAccount with id := "s1", companyName := " a" }

/-- A record whose company name is `"a"`. -/
def plainNameAccount : Account := { sampleAccount with id := "s2", companyName := "a" }

/-! ### Generic facts about the stable insertion sort -/

theorem chain'_orderedInsert {α : Type} {r : α → α → Prop} [DecidableRel r]
    (total : ∀ a b, ¬ r a b → r b a) (x : α) :
    ∀ l : List α, List.Chain' r l → List.Chain' r (List.orderedInsert r x l) := by
  intro l
  induction l with
  | nil => intro _; simp
  | cons y ys ih =>
    intro h
    by_cases hxy : r x y
    · rw [List.orderedInsert, if_pos hxy]
      exact List.chain'_cons.mpr ⟨hxy, h⟩
    · rw [List.orderedInsert, if_neg hxy]
      rw [List.chain'_cons']
      refine ⟨?_, ih h.tail⟩
      intro b hb
      cases ys with
      | nil =>
        simp only [List.orderedInsert, List.head?, Option.mem_def, Option.some_inj] at hb
        subst hb
        exact total x y hxy
      | cons z zs =>
        rw [List.orderedInsert] at hb
        by_cases hxz : r x z
        · rw [if_pos hxz] at hb
          simp only [List.head?, Option.mem_def, Option.some_inj] at hb
          subst hb
          exact total x y hxy
        · rw [if_neg hxz] at hb
          simp only [List.head?, Option.mem_def, Option.some_inj] at hb
          subst hb
          exact (List.chain'_cons.mp h).1

theorem chain'_insertionSort {α : Type} {r : α → α → Prop} [DecidableRel r]
    (total : ∀ a b, ¬ r a b → r b a) :
    ∀ l : List α, List.Chain' r (List.insertionSort r l)
  | [] => by simp
  | x :: xs => by
    rw [List.insertionSort]
    exact chain'_orderedInsert total x _ (chain'_insertionSort total xs)

theorem insertionSort_eq_of_chain' {α : Type} {r : α → α → Prop} [DecidableRel r] :
    ∀ l : List α, List.Chain' r l → List.insertionSort r l = l
  | [], _ => rfl
  | [_], _ => rfl
  | x :: y :: ys, h => by
    rw [List.insertionSort, insertionSort_eq_of_chain' (y :: ys) h.tail,
      List.orderedInsert, if_pos (List.chain'_cons.mp h).1]

theorem chain'_imp_mem {α : Type} {R S : α → α → Prop} :
    ∀ l : List α, (∀ x ∈ l, ∀ y ∈ l, R x y → S x y) → List.Chain' R l → List.Chain' S l
  | [], _, _ => by simp
  | [_], _, _ => by simp
  | x :: y :: ys, h, hc => by
    rw [List.chain'_cons] at hc ⊢
    refine ⟨h x (by simp) y (by simp) hc.1, chain'_imp_mem (y :: ys) ?_ hc.2⟩
    intro a ha b hb hr
    exact h a (List.mem_cons_of_mem _ ha) b (List.mem_cons_of_mem _ hb) hr

/-! ### The field comparators admit a total order step -/

theorem jsSub_total (x y : Option Rat) (h : ¬ jsSub x y ≤ 0) : jsSub y x ≤ 0 := by
  cases x <;> cases y
  case some.some => simp only [jsSub] at h ⊢; linarith
  all_goals simp [jsSub] at h

theorem chLt_asymm : ∀ as bs : List Char, chLt as bs = true → chLt bs as = false := by
  intro as
  induction as with
  | nil =>
    intro bs h
    cases bs with
    | nil => simp [chLt] at h
    | cons b bs => simp [chLt]
  | cons a as ih =>
    intro bs h
    cases bs with
    | nil => simp [chLt] at h
    | cons b bs =>
      simp only [chLt, Bool.or_eq_true, decide_eq_true_eq, Bool.and_eq_true,
        beq_iff_eq] at h
      rcases h with hab | ⟨hab, hrec⟩
      · have h1 : ¬ b < a := lt_asymm hab
        have h2 : b ≠ a := ne_of_gt hab
        simp [chLt, h1, h2]
      · subst hab
        simp [chLt, lt_irrefl, ih bs hrec]

theorem chCmp_swap : ∀ as bs : List Char, chCmp bs as = -chCmp as bs := by
  intro as
  induction as with
  | nil =>
    intro bs
    cases bs <;> simp [chCmp]
  | cons a as ih =>
    intro bs
    cases bs with
    | nil => simp [chCmp]
    | cons b bs =>
      rcases lt_trichotomy a b with h | h | h
      · simp [chCmp, h, lt_asymm h]
      · subst h
        simp [chCmp, lt_irrefl, ih bs]
      · simp [chCmp, h, lt_asymm h]

theorem compareAccounts_total (field : Field) (a b : Account)
    (h : ¬ compareAccounts field a b ≤ 0) : compareAccounts field b a ≤ 0 := by
  cases field
  all_goals simp only [compareAccounts] at h ⊢
  case id => exact absurd le_rfl h
  case status => exact absurd le_rfl h
  case createdDate => exact absurd le_rfl h
  case lastActivity => exact absurd le_rfl h
  case accountNumber => exact jsSub_total _ _ h
  case phoneNumber => exact jsSub_total _ _ h
  case balance => exact jsSub_total _ _ h
  case companyName =>
    rw [chCmp_swap]
    push_cast
    have := not_le.mp h
    push_cast at this
    linarith
  case contactName =>
    rw [chCmp_swap]
    push_cast
    have := not_le.mp h
    push_cast at this
    linarith
  case email =>
    rw [chCmp_swap]
    push_cast
    have := not_le.mp h
    push_cast at this
    linarith
  case dateAdded =>
    by_cases h1 : strLtB (jsStringOf (getField a Field.dateAdded))
        (jsStringOf (getField b Field.dateAdded)) = true
    · have h2 : strLtB (jsStringOf (getField b Field.dateAdded))
          (jsStringOf (getField a Field.dateAdded)) = false := chLt_asymm _ _ h1
      simp [h1, h2]
    · rw [if_neg h1] at h
      split at h
      · norm_num at h
      · exact absurd le_rfl h

/-! ### Facts about the deduplication loop -/

theorem pickUnique_length :
    ∀ (items : List ScoredAccount) (seen : List String) (count : Nat),
      count < 5 → (pickUnique items seen count).length ≤ 5 - count := by
  intro items
  induction items with
  | nil => intro seen count _; simp [pickUnique]
  | cons item rest ih =>
    intro seen count hcount
    rw [pickUnique]
    by_cases hs : seen.contains item.fieldValue
    · rw [if_pos hs]
      exact ih seen count hcount
    · rw [if_neg hs]
      by_cases hfull : count + 1 ≥ 5
      · rw [if_pos hfull]
        simp only [List.length_singleton]
        omega
      · rw [if_neg hfull]
        have := ih (item.fieldValue :: seen) (count + 1) (by omega)
        simp only [List.length_cons]
        omega

theorem pickUnique_sub :
    ∀ (items : List ScoredAccount) (seen : List String) (count : Nat),
      ∀ x ∈ pickUnique items seen count, x ∈ items := by
  intro items
  induction items with
  | nil => intro seen count x hx; simp [pickUnique] at hx
  | cons item rest ih =>
    intro seen count x hx
    rw [pickUnique] at hx
    by_cases hs : seen.contains item.fieldValue
    · rw [if_pos hs] at hx
      exact List.mem_cons_of_mem _ (ih seen count x hx)
    · rw [if_neg hs] at hx
      by_cases hfull : count + 1 ≥ 5
      · rw [if_pos hfull] at hx
        simp only [List.mem_singleton] at hx
        subst hx
        exact List.mem_cons_self _ _
      · rw [if_neg hfull] at hx
        rcases List.mem_cons.mp hx with rfl | hx'
        · exact List.mem_cons_self _ _
        · exact List.mem_cons_of_mem _ (ih _ _ x hx')

theorem pickUnique_distinct :
    ∀ (items : List ScoredAccount) (seen : List String) (count : Nat),
      (∀ x ∈ pickUnique items seen count, ¬ x.fieldValue ∈ seen)
      ∧ List.Pairwise (fun x y => x.fieldValue ≠ y.fieldValue)
          (pickUnique items seen count) := by
  intro items
  induction items with
  | nil => intro seen count; simp [pickUnique]
  | cons item rest ih =>
    intro seen count
    rw [pickUnique]
    by_cases hs : seen.contains item.fieldValue
    · rw [if_pos hs]
      exact ih seen count
    · rw [if_neg hs]
      have hnotin : ¬ item.fieldValue ∈ seen := by
        intro hmem
        exact hs (List.elem_eq_true_of_mem hmem)
      by_cases hfull : count + 1 ≥ 5
      · rw [if_pos hfull]
        constructor
        · intro x hx
          simp only [List.mem_singleton] at hx
          subst hx
          exact hnotin
        · simp
      · rw [if_neg hfull]
        obtain ⟨ih1, ih2⟩ := ih (item.fieldValue :: seen) (count + 1)
        constructor
        · intro x hx
          rcases List.mem_cons.mp hx with rfl | hx'
          · exact hnotin
          · intro hmem
            exact ih1 x hx' (List.mem_cons_of_mem _ hmem)
        · refine List.pairwise_cons.mpr ⟨?_, ih2⟩
          intro y hy heq
          exact ih1 y hy (heq ▸ List.mem_cons_self _ _)

/-! ### Claim theorems -/

/-- Claim C9: `findClosestMatches` applied to the empty search term returns
the empty list, for every record collection and every field. -/
theorem fuzzy_empty_term (accounts : List Account) (field : Field) :
    findClosestMatches "" accounts field = [] := by
  simp [findClosestMatches]

/-- Claim C3: a non-date advanced-filter condition with an empty operand list
matches every record, for every field and operator, on both pages' evaluators
(the secondary page has no date path, so there the hypothesis on the field is
not even needed). -/
theorem empty_values_vacuous (account : Account) (f : AdvancedFilter)
    (hf : f.field ≠ Field.dateAdded) (hv : f.values = []) :
    evaluateFilter account f = true ∧ evaluateFilterS account f = true := by
  constructor
  · simp [evaluateFilter, hf, hv]
  · simp [evaluateFilterS, hv]

/-- A balance filter with operator `>` and no operand values. -/
def emptyBalanceFilter : AdvancedFilter :=
  { id := "f1", logic := .And, field := .balance, operator := .gt,
    values := [], inputValue := "" }

/-- Witness for C3 at the concrete input named by the spec: a `balance > []`
filter excludes no record. -/
theorem empty_values_vacuous_witness :
    evaluateFilter sampleAccount emptyBalanceFilter = true ∧
      evaluateFilterS sampleAccount emptyBalanceFilter = true :=
  empty_values_vacuous sampleAccount emptyBalanceFilter (by decide) rfl

/-- Claim C1: compound evaluation folds strictly left to right: the first
condition's result seeds the accumulator and its logic tag is ignored; each
later condition combines with the accumulator through its own logic tag (also
stated for appending one condition to any non-empty chain); and a chain
`A; OR B; AND C` evaluates as `(A OR B) AND C`. -/
theorem compound_fold (r : Account) (first b c : AdvancedFilter)
    (cs : List AdvancedFilter) (hcs : cs ≠ [])
    (hb : b.logic = LogicOperator.Or) (hc : c.logic = LogicOperator.And) :
    (∀ l, runChain evaluateFilter r ({ first with logic := l } :: cs)
        = runChain evaluateFilter r (first :: cs))
    ∧ runChain evaluateFilter r (cs ++ [c])
        = applyLogic (runChain evaluateFilter r cs) c.logic (evaluateFilter r c)
    ∧ runChain evaluateFilter r [first, b, c]
        = ((evaluateFilter r first || evaluateFilter r b) && evaluateFilter r c) := by
  refine ⟨fun l => rfl, ?_, ?_⟩
  · obtain ⟨x, xs, rfl⟩ := List.exists_cons_of_ne_nil hcs
    simp [runChain, List.foldl_append]
  · simp [runChain, applyLogic, hb, hc]

/-- A filter `companyName is "Acme Corp"` (logic tag irrelevant to its own
evaluation). -/
def isAcmeFilter : AdvancedFilter :=
  { id := "f2", logic := .And, field := .companyName, operator := .is,
    values := ["Acme Corp"], inputValue := "" }

/-- A filter `companyName contains "zeta"`, joined with OR. -/
def orZetaFilter : AdvancedFilter :=
  { id := "f3", logic := .Or, field := .companyName, operator := .contains,
    values := ["zeta"], inputValue := "" }

/-- A filter `companyName startsWith "X"`, joined with AND. -/
def andXFilter : AdvancedFilter :=
  { id := "f4", logic := .And, field := .companyName, operator := .startsWith,
    values := ["X"], inputValue := "" }

/-- Witness for C1: on a concrete record the chain `A; OR B; AND C` evaluates
to `(A OR B) AND C`, which differs from `A OR (B AND C)` there (the fold
yields `false` while conventional precedence would yield `true`). -/
theorem compound_fold_witness :
    runChain evaluateFilter sampleAccount [isAcmeFilter, orZetaFilter, andXFilter]
      = ((evaluateFilter sampleAccount isAcmeFilter
          || evaluateFilter sampleAccount orZetaFilter)
         && evaluateFilter sampleAccount andXFilter)
    ∧ runChain evaluateFilter sampleAccount [isAcmeFilter, orZetaFilter, andXFilter]
        = false
    ∧ (evaluateFilter sampleAccount isAcmeFilter
        || (evaluateFilter sampleAccount orZetaFilter
            && evaluateFilter sampleAccount andXFilter)) = true :=
  ⟨(compound_fold sampleAccount isAcmeFilter orZetaFilter andXFilter
      [isAcmeFilter] (by simp) rfl rfl).2.2,
    by decide, by decide⟩

/-- Claim C2: with a non-empty operand list (on a non-date condition, the
scope of the spec's sentence), `does not contain` requires every operand to
fail as a case-insensitive substring (AND across operands), while `is`,
`contains`, `starts with` and the numeric comparisons require some operand to
pass (OR across operands).  The last conjunct states the same AND semantics
for the secondary page's evaluator. -/
theorem operand_combination (account : Account) (f : AdvancedFilter)
    (hv : f.values ≠ []) (hf : f.field ≠ Field.dateAdded) :
    (f.operator = FilterOperator.doesNotContain →
      (evaluateFilter account f = true ↔
        ∀ v ∈ f.values,
          jsIncludes (jsLower (jsStringOf (getField account f.field))) (jsLower v)
            = false))
    ∧ (f.operator = FilterOperator.is →
      (evaluateFilter account f = true ↔
        ∃ v ∈ f.values,
          jsLower (jsStringOf (getField account f.field)) = jsLower v))
    ∧ (f.operator = FilterOperator.contains →
      (evaluateFilter account f = true ↔
        ∃ v ∈ f.values,
          jsIncludes (jsLower (jsStringOf (getField account f.field))) (jsLower v)
            = true))
    ∧ (f.operator = FilterOperator.startsWith →
      (evaluateFilter account f = true ↔
        ∃ v ∈ f.values,
          jsStartsWith (jsLower (jsStringOf (getField account f.field))) (jsLower v)
            = true))
    ∧ (f.operator = FilterOperator.gt →
      (evaluateFilter account f = true ↔
        ∃ v ∈ f.values,
          jsGtN (jsNumOf (getField account f.field)) (jsToNumber v) = true))
    ∧ (f.operator = FilterOperator.lt →
      (evaluateFilter account f = true ↔
        ∃ v ∈ f.values,
          jsLtN (jsNumOf (getField account f.field)) (jsToNumber v) = true))
    ∧ (f.operator = FilterOperator.ge →
      (evaluateFilter account f = true ↔
        ∃ v ∈ f.values,
          jsGeN (jsNumOf (getField account f.field)) (jsToNumber v) = true))
    ∧ (f.operator = FilterOperator.le →
      (evaluateFilter account f = true ↔
        ∃ v ∈ f.values,
          jsLeN (jsNumOf (getField account f.field)) (jsToNumber v) = true))
    ∧ (f.operator = FilterOperator.doesNotContain →
      (evaluateFilterS account f = true ↔
        ∀ v ∈ f.values,
          jsIncludes (jsLower (jsStringOf (getField account f.field))) (jsLower v)
            = false)) := by
  have hne : f.values.isEmpty = false := by
    simp [List.isEmpty_iff, hv]
  refine ⟨?_, ?_, ?_, ?_, ?_, ?_, ?_, ?_, ?_⟩
  all_goals intro hop
  all_goals simp [evaluateFilter, evaluateFilterS, hf, hne, hop,
    List.any_eq_true, List.all_eq_true, Bool.not_eq_true']

/-- The `does not contain ["Acme","Corp"]` condition on company name. -/
def dncFilter : AdvancedFilter :=
  { id := "f5", logic := .And, field := .companyName,
    operator := .doesNotContain, values := ["Acme", "Corp"], inputValue := "" }

/-- Witness for C2: "Zeta Holdings" contains neither "Acme" nor "Corp", so it
matches the `does not contain` condition. -/
theorem operand_combination_witness :
    evaluateFilter zetaAccount dncFilter = true :=
  ((operand_combination zetaAccount dncFilter (by decide) (by decide)).1 rfl).mpr
    (by decide)

/-- Claim C6: a `dateAdded` condition matches by the date-range rules alone
(start-only: record date at or after start; end-only: record date at or
before end; both: between; neither: always), using lexical comparison of the
ISO date strings, and the outcome is independent of the condition's operator
and value list. -/
theorem date_range_semantics (account : Account) (f : AdvancedFilter)
    (hf : f.field = Field.dateAdded) :
    (f.startDate.getD "" ≠ "" → f.endDate.getD "" = "" →
      evaluateFilter account f = strLeB (f.startDate.getD "") account.dateAdded)
    ∧ (f.startDate.getD "" = "" → f.endDate.getD "" ≠ "" →
      evaluateFilter account f = strLeB account.dateAdded (f.endDate.getD ""))
    ∧ (f.startDate.getD "" ≠ "" → f.endDate.getD "" ≠ "" →
      evaluateFilter account f =
        (strLeB (f.startDate.getD "") account.dateAdded
          && strLeB account.dateAdded (f.endDate.getD "")))
    ∧ (f.startDate.getD "" = "" → f.endDate.getD "" = "" →
      evaluateFilter account f = true)
    ∧ ∀ op vals,
        evaluateFilter account { f with operator := op, values := vals }
          = evaluateFilter account f := by
  refine ⟨?_, ?_, ?_, ?_, ?_⟩
  · intro hs he
    simp [evaluateFilter, hf, hs, he, getField, jsStringOf]
  · intro hs he
    simp [evaluateFilter, hf, hs, he, getField, jsStringOf]
  · intro hs he
    simp [evaluateFilter, hf, hs, he, getField, jsStringOf]
  · intro hs he
    simp [evaluateFilter, hf, hs, he]
  · intro op vals
    simp [evaluateFilter, hf]

/-- A `dateAdded` filter with both bounds set, whose operator and values would
match nothing if they were consulted. -/
def dateRangeFilter : AdvancedFilter :=
  { id := "f6", logic := .And, field := .dateAdded, operator := .is,
    values := ["never"], inputValue := "",
    startDate := some "2024-01-01", endDate := some "2024-02-01" }

/-- Witness for C6: `sampleAccount` (added 2024-01-15) falls inside the range
2024-01-01..2024-02-01, so the condition matches even though its operator and
value list would not. -/
theorem date_range_semantics_witness :
    evaluateFilter sampleAccount dateRangeFilter =
      (strLeB "2024-01-01" sampleAccount.dateAdded
        && strLeB sampleAccount.dateAdded "2024-02-01") :=
  (date_range_semantics sampleAccount dateRangeFilter rfl).2.2.1
    (by decide) (by decide)

/-- `validateSearchInput` accepts every value for the balance field: the
field has no case in its switch. -/
theorem validate_balance_always_valid (v : String) :
    validateSearchInput Field.balance v = { valid := true } := by
  unfold validateSearchInput
  split
  · rfl
  · rfl

/-- Counterexample to claim C4 as stated: `"abc"` does not match the
non-negative decimal pattern, yet `validateSearchInput` on the balance field
returns valid with no error message. -/
theorem validate_balance_cex :
    (validateSearchInput Field.balance "abc").valid = true
    ∧ (validateSearchInput Field.balance "abc").error = none
    ∧ balancePattern "abc" = false := by
  refine ⟨?_, ?_, by decide⟩
  · rw [validate_balance_always_valid]
  · rw [validate_balance_always_valid]

/-- Claim C4 (amended): the balance check lives in `addValueToFilter`, not in
`validateSearchInput`.  For a non-empty trimmed value on a balance filter,
the value is appended exactly when it matches `/^\d+(\.\d+)?$/`, and
otherwise the recorded error is "Balance must be a valid number". -/
theorem addValue_balance_check (f : AdvancedFilter)
    (h1 : jsTrim f.inputValue ≠ "") (h2 : f.field = Field.balance) :
    addValueToFilter f =
      (if balancePattern (jsTrim f.inputValue) then
        some (Except.ok
          { f with values := f.values ++ [jsTrim f.inputValue], inputValue := "" })
      else some (Except.error "Balance must be a valid number")) := by
  by_cases hb : balancePattern (jsTrim f.inputValue) = true
  · simp [addValueToFilter, h1, h2, hb, validate_balance_always_valid]
  · simp only [Bool.not_eq_true] at hb
    simp [addValueToFilter, h1, h2, hb]

/-- A balance filter whose pending input is the non-numeric string "abc". -/
def badBalanceFilter : AdvancedFilter :=
  { id := "f7", logic := .And, field := .balance, operator := .gt,
    values := [], inputValue := "abc" }

/-- Witness for the amended C4: adding "abc" to a balance filter is rejected
with the "Balance must be a valid number" error. -/
theorem addValue_balance_check_witness :
    addValueToFilter badBalanceFilter
      = some (Except.error "Balance must be a valid number") :=
  (addValue_balance_check badBalanceFilter (by decide) rfl).trans
    (if_neg (by decide))

/-- The sorted output is a permutation of the input (shared helper). -/
theorem sortAccounts_perm (accounts : List Account) (field : Field) :
    (sortAccountsByField accounts field).Perm accounts :=
  List.perm_insertionSort _ accounts

/-- The sorted output is comparator-ordered: adjacent elements satisfy
`compareAccounts field x y <= 0` (shared helper). -/
theorem sortAccounts_chain (accounts : List Account) (field : Field) :
    List.Chain' (fun x y => compareAccounts field x y ≤ 0)
      (sortAccountsByField accounts field) :=
  chain'_insertionSort (fun a b h => compareAccounts_total field a b h) accounts

unseal Rat.mul Rat.inv Rat.add Rat.sub in
/-- Concrete evaluation of the spec's balance scenario (helper for C7). -/
theorem balance_scenario_eval :
    sortAccountsByField [balAcc1, balAcc2, balAcc3] Field.balance
      = [balAcc1, balAcc3, balAcc2] := by
  decide

/-- Claim C7: sorting by balance is descending (every adjacent pair of the
output satisfies `next.balance <= previous.balance`); the concrete scenario
5000, -200, 1000 comes out as 5000, 1000, -200; and sorting by account number
is ascending numeric whenever every account number parses as a number. -/
theorem balance_sort_descending (accounts accounts2 : List Account)
    (hnum : ∀ a ∈ accounts2, (jsToNumber a.accountNumber).isSome = true) :
    List.Chain' (fun x y => y.balance ≤ x.balance)
      (sortAccountsByField accounts Field.balance)
    ∧ sortAccountsByField [balAcc1, balAcc2, balAcc3] Field.balance
        = [balAcc1, balAcc3, balAcc2]
    ∧ List.Chain'
        (fun x y => (jsToNumber x.accountNumber).getD 0
          ≤ (jsToNumber y.accountNumber).getD 0)
        (sortAccountsByField accounts2 Field.accountNumber) := by
  refine ⟨?_, ?_, ?_⟩
  · refine (sortAccounts_chain accounts Field.balance).imp ?_
    intro x y h
    simp only [compareAccounts, getField, jsNumOf, jsSub, sub_nonpos,
      Int.cast_le] at h
    exact h
  · exact balance_scenario_eval
  · refine chain'_imp_mem _ ?_ (sortAccounts_chain accounts2 Field.accountNumber)
    intro x hx y hy h
    have hx2 : x ∈ accounts2 := (sortAccounts_perm accounts2 Field.accountNumber).subset hx
    have hy2 : y ∈ accounts2 := (sortAccounts_perm accounts2 Field.accountNumber).subset hy
    obtain ⟨nx, hnx⟩ := Option.isSome_iff_exists.mp (hnum x hx2)
    obtain ⟨ny, hny⟩ := Option.isSome_iff_exists.mp (hnum y hy2)
    simp only [compareAccounts, getField, jsNumOf, hnx, hny, jsSub, sub_nonpos] at h
    simp [hnx, hny, h]

/-- Witness for C7: the balance-descending chain at the scenario list, each
hypothesis discharged at the concrete input. -/
theorem balance_sort_descending_witness :
    List.Chain' (fun x y => y.balance ≤ x.balance)
      (sortAccountsByField [balAcc1, balAcc2, balAcc3] Field.balance) :=
  (balance_sort_descending [balAcc1, balAcc2, balAcc3] [] (by simp)).1

/-- Claim C8: `sortAccountsByField` is deterministic (equal calls give equal
results; in this pure embedding the input list is untouched by construction)
and idempotent: re-sorting the output reproduces it. -/
theorem sort_deterministic_idempotent (accounts : List Account) (field : Field) :
    sortAccountsByField accounts field = sortAccountsByField accounts field
    ∧ sortAccountsByField (sortAccountsByField accounts field) field
        = sortAccountsByField accounts field :=
  ⟨rfl, insertionSort_eq_of_chain' _ (sortAccounts_chain accounts field)⟩

/-- Claim C10: the sorted output is a permutation of the input: same length,
same multiset, and every output record comes from the input. -/
theorem sort_is_permutation (accounts : List Account) (field : Field) :
    (sortAccountsByField accounts field).Perm accounts
    ∧ (sortAccountsByField accounts field).length = accounts.length
    ∧ ∀ a ∈ sortAccountsByField accounts field, a ∈ accounts :=
  ⟨sortAccounts_perm accounts field,
    (sortAccounts_perm accounts field).length_eq,
    fun _ ha => (sortAccounts_perm accounts field).subset ha⟩

/-- Witness for C10 at a concrete list. -/
theorem sort_is_permutation_witness :
    (sortAccountsByField [balAcc1, balAcc2] Field.balance).Perm [balAcc1, balAcc2] :=
  (sort_is_permutation [balAcc1, balAcc2] Field.balance).1

/-- Projection of the scored entry: the deduplication key is the lower-cased
field value. -/
theorem mkScored_fieldValue (t : String) (f : Field) (a : Account) :
    (mkScored t f a).fieldValue = jsLower (jsStringOf (getField a f)) := rfl

/-- Projection of the scored entry: the carried account. -/
theorem mkScored_account (t : String) (f : Field) (a : Account) :
    (mkScored t f a).account = a := rfl

/-- The three suggestion-list properties, stated over any candidate list
whose entries are well-formed scored accounts with positive score (helper
for C5). -/
theorem fuzzy_core (t : String) (field : Field) (L : List ScoredAccount)
    (hL : ∀ x ∈ L, x = mkScored t field x.account ∧ 0 < x.score) :
    ((pickUnique L [] 0).map (fun item => item.account)).length ≤ 5
    ∧ List.Pairwise
        (fun x y => jsLower (jsStringOf (getField x field))
          ≠ jsLower (jsStringOf (getField y field)))
        ((pickUnique L [] 0).map (fun item => item.account))
    ∧ ∀ a ∈ (pickUnique L [] 0).map (fun item => item.account),
        0 < (mkScored t field a).score := by
  refine ⟨?_, ?_, ?_⟩
  · rw [List.length_map]
    have h := pickUnique_length L [] 0 (by norm_num)
    omega
  · rw [List.pairwise_map]
    have hp := (pickUnique_distinct L [] 0).2
    refine hp.imp_of_mem ?_
    intro x y hx hy hne heq
    apply hne
    have ex := (hL x (pickUnique_sub L [] 0 x hx)).1
    have ey := (hL y (pickUnique_sub L [] 0 y hy)).1
    calc x.fieldValue = jsLower (jsStringOf (getField x.account field)) := by
          rw [ex, mkScored_fieldValue, mkScored_account]
      _ = jsLower (jsStringOf (getField y.account field)) := heq
      _ = y.fieldValue := by
          rw [ey, mkScored_fieldValue, mkScored_account]
  · intro a ha
    rw [List.mem_map] at ha
    obtain ⟨x, hx, rfl⟩ := ha
    obtain ⟨ex, hpos⟩ := hL x (pickUnique_sub L [] 0 x hx)
    rw [← ex]
    exact hpos

/-- Claim C5 (amended): the suggestion list has at most five entries, no
entry scores at or below zero, and no two entries share the same lower-cased
field value.  (The source deduplicates by the lower-cased value alone, with
no trimming; the counterexample below shows the trimmed version fails.) -/
theorem fuzzy_bounds (searchTerm : String) (accounts : List Account)
    (field : Field) :
    (findClosestMatches searchTerm accounts field).length ≤ 5
    ∧ List.Pairwise
        (fun x y => jsLower (jsStringOf (getField x field))
          ≠ jsLower (jsStringOf (getField y field)))
        (findClosestMatches searchTerm accounts field)
    ∧ ∀ a ∈ findClosestMatches searchTerm accounts field,
        0 < (mkScored searchTerm field a).score := by
  by_cases hterm : searchTerm = ""
  · simp [findClosestMatches, hterm]
  · have hunfold : findClosestMatches searchTerm accounts field
        = (pickUnique
            ((List.insertionSort (fun a b => a.score ≥ b.score)
              (accounts.map (mkScored searchTerm field))).filter
              fun item => decide (item.score > 0)) [] 0).map
            (fun item => item.account) := by
      unfold findClosestMatches
      rw [if_neg hterm]
    rw [hunfold]
    refine fuzzy_core searchTerm field _ ?_
    intro x hx
    rw [List.mem_filter] at hx
    obtain ⟨hx1, hx2⟩ := hx
    have hx3 : x ∈ accounts.map (mkScored searchTerm field) :=
      (List.perm_insertionSort _ _).subset hx1
    obtain ⟨a, _, rfl⟩ := List.mem_map.mp hx3
    exact ⟨rfl, by simpa using hx2⟩

unseal Rat.mul Rat.inv Rat.add Rat.sub in
/-- Counterexample to C5 as stated: with company names `" a"` and `"a"` both
records survive deduplication (the keys are lower-cased but not trimmed), so
the suggestion list contains two entries whose field values coincide after
case folding and trimming. -/
theorem fuzzy_trim_cex :
    findClosestMatches "a" [spacedNameAccount, plainNameAccount] Field.companyName
      = [plainNameAccount, spacedNameAccount]
    ∧ jsTrim (jsLower spacedNameAccount.companyName)
        = jsTrim (jsLower plainNameAccount.companyName)
    ∧ jsLower spacedNameAccount.companyName
        ≠ jsLower plainNameAccount.companyName := by
  exact ⟨by decide, by decide, by decide⟩

/-- Witness for C5 at a concrete input. -/
theorem fuzzy_bounds_witness :
    (findClosestMatches "a" [spacedNameAccount, plainNameAccount]
      Field.companyName).length ≤ 5 :=
  (fuzzy_bounds "a" [spacedNameAccount, plainNameAccount] Field.companyName).1

end BillmaxSearch
